import Mathlib

/-!
Shallow embedding of the `while` line-dispatch loop repository.

The repository holds three variants of the same "while over input lines" primitive:

* `package while` (yupsh): `While(processor).Execute` checks for a nil processor and
  delegates the loop to the framework's `ProcessLinesSimple`, executing the processor's
  command for each line with a nil input reader.
* `package command` (body-based): `While(body).Executor` scans lines, splits each line
  into fields (by `FieldSeparator`, or whitespace when the separator is empty), calls
  `body(fields...)`, skips nil commands, executes the returned command with an empty
  input reader, fails fast on the first error, and checks context cancellation after
  each executed line.
* `package command` (pass-through, `command.go`): `Executor` copies each scanned line
  to stdout followed by a newline, checking cancellation after each write.

Modelling conventions: the scanner (Line Source) is abstracted as the list of lines it
produces followed by the value of `scanner.Err()` (`none` = clean end-of-stream,
`some m` = read error).  Output and error streams are in-memory buffers (lists of the
written chunks); writes to them never fail, as with `strings.Builder`.  A context is
its cancellation flag, fixed for the duration of one loop run.  An executable unit
(`yup.Command` / `gloo.Command`) is a function from context, optional input
(`none` = nil reader, `some s` = a reader over `s`) and streams to updated streams and
an optional error message (`none` = success).
-/

namespace WhileLoop

/-- The pair of shared byte sinks: stdout and stderr, each recorded as the list of
chunks written to it, in order. -/
structure Streams where
  out : List String
  err : List String
deriving DecidableEq

/-- An execution context: just its cancellation state (`ctx.Done()` fired iff
`cancelled = true`). -/
structure Ctx where
  cancelled : Bool
deriving DecidableEq

/-- The message carried by `ctx.Err()` for a cancelled context. -/
def ctxErr : String := "context canceled"

/-- An executable unit (`yup.Command` / `gloo.Command`): one operation
`execute(ctx, input, output, stderr) → error`.  The input reader is `none` for a nil
reader and `some s` for a reader over the string `s`; the streams argument and result
model writes performed on the shared stdout/stderr sinks. -/
structure UnitCmd where
  run : Ctx → Option String → Streams → Streams × Option String

/-! ## Body-based variant (`package command`, body/field-splitting loop) -/

/-- Flags of the `command` package: `type flags struct { FieldSeparator FieldSeparator }`. -/
structure BFlags where
  fieldSeparator : String
deriving DecidableEq

/-- Go `unicode.IsSpace`, which `strings.Fields` uses to find field boundaries: the
Unicode White_Space code points.  In Latin-1: space, tab, newline, vertical tab, form
feed, carriage return, NEL (U+0085) and NBSP (U+00A0); beyond Latin-1: ogham space
mark (U+1680), the en-quad..hair-space range (U+2000..U+200A), line separator
(U+2028), paragraph separator (U+2029), narrow no-break space (U+202F), medium
mathematical space (U+205F) and ideographic space (U+3000). -/
def goIsSpace (c : Char) : Bool :=
  c == ' ' || c == '\t' || c == '\n' || c.toNat == 11 || c.toNat == 12 ||
    c == '\r' || c.toNat == 133 || c.toNat == 160 ||
    c.toNat == 0x1680 || (0x2000 ≤ c.toNat && c.toNat ≤ 0x200A) ||
    c.toNat == 0x2028 || c.toNat == 0x2029 || c.toNat == 0x202F ||
    c.toNat == 0x205F || c.toNat == 0x3000

/-- Go `strings.Fields`: split around each maximal run of white space characters,
returning only the non-empty substrings (cut at every white space character and drop
the empty pieces). -/
def goFields (s : String) : List String :=
  ((s.toList.splitOnP (fun c => goIsSpace c)).filter (fun t => t ≠ [])).map
    (fun cs => String.mk cs)

/-- Whether the first list is an initial segment of the second. -/
def leadsWith : List Char → List Char → Bool
  | [], _ => true
  | _ :: _, [] => false
  | p :: ps, c :: cs => p == c && leadsWith ps cs

/-- Go `strings.Split` with a non-empty separator, over character lists: cut at each
leftmost, non-overlapping occurrence of `sep`; the separators do not appear in the
result.  The fuel argument — instantiated with the input length — only makes the
recursion structural; every step consumes at least one character, so with enough
fuel the `0` case is never reached. -/
def goSplitAux (sep : List Char) : Nat → List Char → List Char → List (List Char)
  | _, [], acc => [acc.reverse]
  | 0, rest, acc => [acc.reverse ++ rest]
  | fuel + 1, c :: cs, acc =>
    if leadsWith sep (c :: cs) then
      acc.reverse :: goSplitAux sep fuel (List.drop sep.length (c :: cs)) []
    else
      goSplitAux sep fuel cs (c :: acc)

/-- Go `strings.Split s sep` for the non-empty separators the executor uses. -/
def goSplit (sep s : String) : List String :=
  (goSplitAux sep.toList s.toList.length s.toList []).map (fun cs => String.mk cs)

/-- The field parsing performed per line by the body-based executor: split by the
field separator when it is non-empty (`strings.Split`), otherwise split on
whitespace (`strings.Fields`). -/
def parseFields (fs : String) (line : String) : List String :=
  if fs ≠ "" then goSplit fs line else goFields line

/-- The body function: takes the parsed fields of a line and returns a command to
execute, or `none` (Go `nil`) to skip the line. -/
def Body : Type := List String → Option UnitCmd

/-- The loop of the body-based `Executor` (`command.go`, body variant): for each
scanned line, parse it into fields, call the body, skip the line when the body
returns nil, otherwise execute the returned command with an empty input reader and
the shared streams; return the command's error at the first failure; after each
executed line, check cancellation and return `ctx.Err()` if the context is done;
at the end of the scan return `scanner.Err()`. -/
def bodyExec (flags : BFlags) (body : Body) (ctx : Ctx) :
    List String → Option String → Streams → Streams × Option String
  | [], readErr, s => (s, readErr)
  | line :: rest, readErr, s =>
    match body (parseFields flags.fieldSeparator line) with
    | none => bodyExec flags body ctx rest readErr s
    | some cmd =>
      match cmd.run ctx (some "") s with
      | (s', some msg) => (s', some msg)
      | (s', none) =>
        if ctx.cancelled then (s', some ctxErr)
        else bodyExec flags body ctx rest readErr s'

/-! ## Pass-through variant (`src/command.go`) -/

/-- The loop of the pass-through `Executor` (`src/command.go`): write each scanned
line to stdout followed by a newline (`fmt.Fprintln`), then check cancellation and
return `ctx.Err()` if the context is done; at the end of the scan return
`scanner.Err()`.  The flags held by the command are never consulted. -/
def passExec (flags : BFlags) (ctx : Ctx) :
    List String → Option String → Streams → Streams × Option String
  | [], readErr, s => (s, readErr)
  | line :: rest, readErr, s =>
    let s' : Streams := { s with out := s.out ++ [line ++ "\n"] }
    if ctx.cancelled then (s', some ctxErr)
    else passExec flags ctx rest readErr s'

/-! ## Processor variant (`package while`, yupsh) -/

/-- Modelled from the spec: `yup.ProcessLinesSimple` belongs to the yupsh framework
and is not among this repository's sources.  Per the spec's Dispatch Loop contract:
read lines in order; check cancellation at each line boundary so that an
already-cancelled context halts processing before any further line executes; invoke
the callback once per line, synchronously, with the context, the 1-indexed line
number, the line text and the shared streams; stop at the first callback failure and
surface it verbatim; report end-of-stream as success and a read error as-is. -/
def processLinesSimple (ctx : Ctx)
    (fn : Ctx → Nat → String → Streams → Streams × Option String) :
    List String → Option String → Nat → Streams → Streams × Option String
  | [], readErr, _, s => (s, readErr)
  | line :: rest, readErr, n, s =>
    if ctx.cancelled then (s, some ctxErr)
    else
      match fn ctx n line s with
      | (s', some msg) => (s', some msg)
      | (s', none) => processLinesSimple ctx fn rest readErr (n + 1) s'

/-- The yupsh `while` command: holds the configured `LineProcessor`
(`none` models a Go nil processor). -/
structure WhileCmd where
  processor : Option (String → Option UnitCmd)

/-- `command.Execute` of the yupsh `while` package: fail immediately when no
processor is configured; otherwise run `ProcessLinesSimple` with a per-line callback
that applies the processor to the line, skips nil commands, and executes the returned
command with a nil input reader and the shared stdout/stderr. -/
def whileExecute (c : WhileCmd) (ctx : Ctx) (lines : List String)
    (readErr : Option String) (s : Streams) : Streams × Option String :=
  match c.processor with
  | none => (s, some "while: processor function is required")
  | some p =>
    processLinesSimple ctx
      (fun ctx _lineNum line s =>
        match p line with
        | none => (s, none)
        | some cmd => cmd.run ctx none s)
      lines readErr 1 s

/-! ## Helper notions and lemmas -/

/-- Number of newline characters in a string. -/
def newlineCount (s : String) : Nat := s.toList.countP (fun c => c == '\n')

/-- Total number of newline characters across a list of written chunks: the number of
(terminated) lines the corresponding byte stream holds. -/
def newlineCountL (l : List String) : Nat := (l.map newlineCount).sum

theorem newlineCount_append (a b : String) :
    newlineCount (a ++ b) = newlineCount a + newlineCount b := by
  simp [newlineCount, List.countP_append, show (a ++ b).toList = a.toList ++ b.toList from rfl]

theorem newlineCountL_one_per_chunk {α : Type} (w : α → String)
    (hw : ∀ a, newlineCount (w a) = 0) :
    ∀ l : List α, newlineCountL (l.map (fun a => w a ++ "\n")) = l.length := by
  intro l
  induction l with
  | nil => rfl
  | cons a t ih =>
    simp only [newlineCountL, List.map_cons, List.sum_cons, List.length_cons,
      List.map_map] at ih ⊢
    rw [newlineCount_append, hw a, show newlineCount "\n" = 1 by decide]
    omega

theorem flatten_map_singleton {α β : Type} (f : α → β) :
    ∀ l : List α, (l.map (fun a => [f a])).flatten = l.map f := by
  intro l
  induction l with
  | nil => rfl
  | cons a t ih => simp [ih]

theorem flatten_map_const_singleton {α β : Type} (b : β) :
    ∀ l : List α, (l.map (fun _ => [b])).flatten = List.replicate l.length b := by
  intro l
  induction l with
  | nil => rfl
  | cons a t ih => simp [ih, List.replicate_succ]

theorem flatten_map_const_nil {α β : Type} :
    ∀ l : List α, (l.map (fun _ => ([] : List β))).flatten = [] := by
  intro l
  induction l with
  | nil => rfl
  | cons a t ih => simp [ih]

theorem leadsWith_eq_append (p : List Char) :
    ∀ l : List Char, leadsWith p l = true → l = p ++ List.drop p.length l := by
  induction p with
  | nil => intro l _; simp
  | cons a p ih =>
    intro l h
    cases l with
    | nil => simp [leadsWith] at h
    | cons c cs =>
      simp only [leadsWith, Bool.and_eq_true, beq_iff_eq] at h
      obtain ⟨rfl, h2⟩ := h
      simpa using ih cs h2

theorem goSplitAux_ne_nil (sep : List Char) :
    ∀ (fuel : Nat) (l acc : List Char), goSplitAux sep fuel l acc ≠ [] := by
  intro fuel
  induction fuel with
  | zero =>
    intro l acc
    cases l <;> simp [goSplitAux]
  | succ fuel ih =>
    intro l acc
    cases l with
    | nil => simp [goSplitAux]
    | cons c cs =>
      rw [goSplitAux]
      by_cases h : leadsWith sep (c :: cs) <;> simp [h, ih]

theorem intercalate_cons_of_ne_nil {α : Type} (sep a : List α) (xs : List (List α))
    (h : xs ≠ []) :
    List.intercalate sep (a :: xs) = a ++ sep ++ List.intercalate sep xs := by
  cases xs with
  | nil => exact absurd rfl h
  | cons b t => simp [List.intercalate, List.intersperse, List.append_assoc]

/-- Joining the pieces of `goSplitAux` back with the separator restores the input:
the separator split cuts exactly at occurrences of the separator. -/
theorem goSplitAux_intercalate (sep : List Char) (hsep : sep ≠ []) :
    ∀ (fuel : Nat) (l acc : List Char), l.length ≤ fuel →
      List.intercalate sep (goSplitAux sep fuel l acc) = acc.reverse ++ l := by
  intro fuel
  induction fuel with
  | zero =>
    intro l acc h
    rw [List.length_eq_zero.mp (Nat.le_zero.mp h)]
    simp [goSplitAux, List.intercalate, List.intersperse]
  | succ fuel ih =>
    intro l acc h
    cases l with
    | nil => simp [goSplitAux, List.intercalate, List.intersperse]
    | cons c cs =>
      rw [goSplitAux]
      by_cases hl : leadsWith sep (c :: cs)
      · rw [if_pos hl]
        rw [intercalate_cons_of_ne_nil sep _ _ (goSplitAux_ne_nil sep _ _ _)]
        have hdrop : (List.drop sep.length (c :: cs)).length ≤ fuel := by
          have h1 : 1 ≤ sep.length := by
            cases sep with
            | nil => exact absurd rfl hsep
            | cons _ _ => simp
          simp only [List.length_cons] at h
          simp only [List.length_drop, List.length_cons]
          omega
        rw [ih (List.drop sep.length (c :: cs)) [] hdrop]
        have hsplit := leadsWith_eq_append sep (c :: cs) hl
        conv_rhs => rw [hsplit]
        simp [List.append_assoc]
      · rw [if_neg hl]
        rw [ih cs (c :: acc) (by simpa using Nat.le_of_succ_le_succ h)]
        simp

/-- Joining the fields of `goSplit` back with the separator restores the line. -/
theorem goSplit_intercalate (sep s : String) (hsep : sep ≠ "") :
    List.intercalate sep.toList ((goSplit sep s).map String.toList) = s.toList := by
  have hsep' : sep.toList ≠ [] := by
    intro h
    exact hsep (by cases sep with | mk d => simpa [String.toList] using congrArg String.mk h)
  have h := goSplitAux_intercalate sep.toList hsep' s.toList.length s.toList []
    (Nat.le_refl _)
  have hmap : (goSplit sep s).map String.toList =
      goSplitAux sep.toList s.toList.length s.toList [] := by
    rw [goSplit, List.map_map]
    have hid : (String.toList ∘ fun cs => String.mk cs) = id := rfl
    rw [hid, List.map_id]
  rw [hmap]
  simpa using h

/-- The pieces of `List.splitOnP`, flattened, are exactly the elements not
satisfying the predicate, in order: the split drops separators and nothing else. -/
theorem splitOnP_go_flatten {α : Type} (P : α → Bool) :
    ∀ (l acc : List α),
      (List.splitOnP.go P l acc).flatten = acc.reverse ++ l.filter (fun a => !P a) := by
  intro l
  induction l with
  | nil => intro acc; simp [List.splitOnP.go]
  | cons a t ih =>
    intro acc
    rw [List.splitOnP.go]
    by_cases h : P a
    · rw [if_pos h, List.filter_cons]
      have hp : P a = true := by simpa using h
      simp [hp, ih]
    · rw [if_neg h, List.filter_cons]
      have hp : P a = false := by simpa using h
      simp only [hp, Bool.not_false, if_true]
      rw [ih (a :: acc)]
      simp

/-- No piece produced by `List.splitOnP` contains an element satisfying the
predicate. -/
theorem splitOnP_go_no_sep {α : Type} (P : α → Bool) :
    ∀ (l acc : List α), (∀ a ∈ acc, P a = false) →
      ∀ piece ∈ List.splitOnP.go P l acc, ∀ a ∈ piece, P a = false := by
  intro l
  induction l with
  | nil =>
    intro acc hacc piece hpiece a ha
    simp only [List.splitOnP.go, List.mem_singleton] at hpiece
    subst hpiece
    exact hacc a (by simpa using ha)
  | cons x t ih =>
    intro acc hacc piece hpiece a ha
    rw [List.splitOnP.go] at hpiece
    by_cases h : P x
    · rw [if_pos h] at hpiece
      simp only [List.mem_cons] at hpiece
      rcases hpiece with rfl | hpiece
      · exact hacc a (by simpa using ha)
      · exact ih [] (by simp) piece hpiece a ha
    · rw [if_neg h] at hpiece
      refine ih (x :: acc) ?_ piece hpiece a ha
      intro b hb
      rcases List.mem_cons.mp hb with rfl | hb
      · simpa using h
      · exact hacc b hb

theorem flatten_filter_ne_nil {α : Type} [DecidableEq α] :
    ∀ l : List (List α), (l.filter (fun t => t ≠ [])).flatten = l.flatten := by
  intro l
  induction l with
  | nil => rfl
  | cons a t ih =>
    rw [List.filter_cons]
    by_cases h : a = []
    · subst h; simpa using ih
    · rw [if_pos (by simpa using h), List.flatten_cons, ih]
      simp

/-- The characters of the whitespace-split fields, concatenated, are exactly the
non-whitespace characters of the line, in order. -/
theorem goFields_flatten (s : String) :
    ((goFields s).map String.toList).flatten = s.toList.filter (fun c => !goIsSpace c) := by
  have h1 : (goFields s).map String.toList =
      (s.toList.splitOnP (fun c => goIsSpace c)).filter (fun t => t ≠ []) := by
    rw [goFields, List.map_map]
    have hid : (String.toList ∘ fun cs => String.mk cs) = id := rfl
    rw [hid, List.map_id]
  rw [h1, flatten_filter_ne_nil, List.splitOnP]
  simpa using splitOnP_go_flatten (fun c => goIsSpace c) s.toList []

/-- Every whitespace-split field is non-empty and contains no whitespace
character. -/
theorem goFields_no_space (s : String) :
    ∀ t ∈ goFields s, t ≠ "" ∧ ∀ c ∈ t.toList, goIsSpace c = false := by
  intro t ht
  simp only [goFields, List.mem_map, List.mem_filter] at ht
  obtain ⟨cs, ⟨hmem, hne⟩, rfl⟩ := ht
  constructor
  · intro h
    have : cs = [] := by
      simpa [String.toList] using congrArg String.toList h
    simp [this] at hne
  · intro c hc
    have hsp := splitOnP_go_no_sep (fun c => goIsSpace c) s.toList [] (by simp)
    exact hsp cs (by simpa [List.splitOnP] using hmem) c (by simpa using hc)

/-- A full run of the body-based loop in which every line's body yields a unit whose
only effect is to append fixed chunks (depending on the parsed fields) to stdout and
stderr and succeed: the loop succeeds and the streams accumulate one contribution per
line, in line order. -/
theorem bodyExec_allOk (flags : BFlags) (body : Body) (ctx : Ctx)
    (u : List String → UnitCmd) (A B : List String → List String)
    (hctx : ctx.cancelled = false)
    (hb : ∀ args, body args = some (u args))
    (hu : ∀ args t, (u args).run ctx (some "") t =
      ({ out := t.out ++ A args, err := t.err ++ B args }, none)) :
    ∀ (lines : List String) (s : Streams),
      bodyExec flags body ctx lines none s =
        ({ out := s.out ++ (lines.map (fun l => A (parseFields flags.fieldSeparator l))).flatten,
           err := s.err ++ (lines.map (fun l => B (parseFields flags.fieldSeparator l))).flatten },
         none) := by
  intro lines
  induction lines with
  | nil => intro s; simp [bodyExec]
  | cons l t ih =>
    intro s
    rw [bodyExec]
    simp only [hb, hu, hctx, Bool.false_eq_true, if_false]
    rw [ih]
    simp [List.append_assoc]

/-- A full run of the spec-modelled `ProcessLinesSimple` in which the callback's only
effect is to append fixed chunks to the streams and succeed. -/
theorem processLinesSimple_allOk (ctx : Ctx)
    (fn : Ctx → Nat → String → Streams → Streams × Option String)
    (A B : String → List String)
    (hctx : ctx.cancelled = false)
    (hfn : ∀ n line t, fn ctx n line t =
      ({ out := t.out ++ A line, err := t.err ++ B line }, none)) :
    ∀ (lines : List String) (n : Nat) (s : Streams),
      processLinesSimple ctx fn lines none n s =
        ({ out := s.out ++ (lines.map A).flatten, err := s.err ++ (lines.map B).flatten }, none) := by
  intro lines
  induction lines with
  | nil => intro n s; simp [processLinesSimple]
  | cons l t ih =>
    intro n s
    rw [processLinesSimple]
    simp only [hctx, Bool.false_eq_true, if_false, hfn]
    rw [ih]
    simp [List.append_assoc]

/-- `ProcessLinesSimple` does not depend on the starting line number when the
callback ignores it. -/
theorem processLinesSimple_lineNum_irrel (ctx : Ctx)
    (fn : Ctx → Nat → String → Streams → Streams × Option String)
    (hfn : ∀ n m line t, fn ctx n line t = fn ctx m line t) :
    ∀ (lines : List String) (readErr : Option String) (n m : Nat) (s : Streams),
      processLinesSimple ctx fn lines readErr n s = processLinesSimple ctx fn lines readErr m s := by
  intro lines
  induction lines with
  | nil => intro readErr n m s; rfl
  | cons l t ih =>
    intro readErr n m s
    rw [processLinesSimple, processLinesSimple]
    by_cases hc : ctx.cancelled
    · simp [hc]
    · simp only [hc, if_false, Bool.false_eq_true]
      rw [hfn n m l s]
      cases fn ctx m l s with
      | mk s' e =>
        cases e with
        | none => exact ih readErr (n + 1) (m + 1) s'
        | some msg => rfl

/-! ## Concrete processors and units used as witnesses -/

/-- A unit that performs no writes and fails with the message `boom`. -/
def failUnit : UnitCmd := ⟨fun _ _ s => (s, some "boom")⟩

/-- A body that yields `failUnit` for every line. -/
def failBody : Body := fun _ => some failUnit

/-- A processor that yields `failUnit` for every line. -/
def failProc : String → Option UnitCmd := fun _ => some failUnit

/-- A unit that writes the single line `x` to stdout and succeeds. -/
def xUnit : UnitCmd :=
  ⟨fun _ _ t => ({ out := t.out ++ ["x" ++ "\n"], err := t.err }, none)⟩

/-- A body that yields `xUnit` for every line. -/
def xBody : Body := fun _ => some xUnit

/-- A processor that yields `xUnit` for every line. -/
def xProc : String → Option UnitCmd := fun _ => some xUnit

/-! ## The claims -/

/-- C4: running the yupsh `while` command with no processor configured fails
immediately with the message `while: processor function is required`; the result does
not depend on the input lines or the scanner outcome (no lines are read) and the
streams are returned unchanged (no output is written). -/
theorem c4_nil_processor_fails_immediately (ctx : Ctx) (lines : List String)
    (readErr : Option String) (s : Streams) :
    whileExecute ⟨none⟩ ctx lines readErr s =
      (s, some "while: processor function is required") := rfl

/-- C7: on empty input (no lines, clean end-of-stream) both the body-based executor
and the yupsh `Execute` leave the streams unchanged (empty output) and return
success. -/
theorem c7_empty_input_success (flags : BFlags) (body : Body)
    (p : String → Option UnitCmd) (ctx : Ctx) (s : Streams) :
    bodyExec flags body ctx [] none s = (s, none) ∧
    whileExecute ⟨some p⟩ ctx [] none s = (s, none) := ⟨rfl, rfl⟩

/-- C8: when the scanner is exhausted, the body-based and pass-through executors stop
and report success if `scanner.Err()` is nil (clean end-of-stream) and report the
read error as-is otherwise. -/
theorem c8_eof_and_read_error (flags : BFlags) (body : Body) (ctx : Ctx)
    (s : Streams) (m : String) :
    bodyExec flags body ctx [] none s = (s, none) ∧
    bodyExec flags body ctx [] (some m) s = (s, some m) ∧
    passExec flags ctx [] none s = (s, none) ∧
    passExec flags ctx [] (some m) s = (s, some m) := ⟨rfl, rfl, rfl, rfl⟩

/-- C2: if the unit executed for a line fails, both loops stop at once and return
that unit's failure unchanged: the result is the failing unit's streams and message,
independent of the remaining lines `rest` and of the scanner outcome, so no
processor call and no unit execution happens for any later line. -/
theorem c2_unit_failure_fail_fast (flags : BFlags) (body : Body)
    (p : String → Option UnitCmd) (ctx : Ctx) (l : String) (rest : List String)
    (readErr : Option String) (s s' : Streams) (u v : UnitCmd) (msg : String)
    (hctx : ctx.cancelled = false)
    (hb : body (parseFields flags.fieldSeparator l) = some u)
    (hu : u.run ctx (some "") s = (s', some msg))
    (hp : p l = some v)
    (hv : v.run ctx none s = (s', some msg)) :
    bodyExec flags body ctx (l :: rest) readErr s = (s', some msg) ∧
    whileExecute ⟨some p⟩ ctx (l :: rest) readErr s = (s', some msg) := by
  constructor
  · rw [bodyExec]
    simp [hb, hu]
  · rw [whileExecute]
    simp only []
    rw [processLinesSimple]
    simp [hctx, hp, hv]

/-- Witness for C2 at a concrete input: a two-line input whose first line's unit
fails with `boom` makes both loops return `boom` with nothing written, the second
line never being processed. -/
theorem c2_unit_failure_fail_fast_witness :
    bodyExec ⟨""⟩ failBody ⟨false⟩ ["a", "b"] none ⟨[], []⟩ = (⟨[], []⟩, some "boom") ∧
    whileExecute ⟨some failProc⟩ ⟨false⟩ ["a", "b"] none ⟨[], []⟩ = (⟨[], []⟩, some "boom") :=
  c2_unit_failure_fail_fast ⟨""⟩ failBody failProc ⟨false⟩ "a" ["b"] none
    ⟨[], []⟩ ⟨[], []⟩ failUnit failUnit "boom" rfl rfl rfl rfl rfl

/-- C1: when the body / processor yields, for every line, a unit that writes exactly
one newline-terminated line to stdout and succeeds, both the body-based executor and
the yupsh `Execute` succeed with stdout extended by exactly one line per input line,
in input order, and the error stream untouched; the written chunks hold exactly `N`
newline characters for `N` input lines. -/
theorem c1_n_lines_in_n_lines_out (flags : BFlags) (body : Body)
    (p : String → Option UnitCmd) (ctx : Ctx) (lines : List String) (s : Streams)
    (ub : List String → UnitCmd) (wb : List String → String)
    (up : String → UnitCmd) (wp : String → String)
    (hctx : ctx.cancelled = false)
    (hb : ∀ args, body args = some (ub args))
    (hub : ∀ args t, (ub args).run ctx (some "") t =
      ({ out := t.out ++ [wb args ++ "\n"], err := t.err }, none))
    (hwb : ∀ args, newlineCount (wb args) = 0)
    (hp : ∀ l, p l = some (up l))
    (hup : ∀ l t, (up l).run ctx none t =
      ({ out := t.out ++ [wp l ++ "\n"], err := t.err }, none))
    (hwp : ∀ l, newlineCount (wp l) = 0) :
    bodyExec flags body ctx lines none s =
      ({ out := s.out ++ lines.map (fun l => wb (parseFields flags.fieldSeparator l) ++ "\n"),
         err := s.err }, none) ∧
    whileExecute ⟨some p⟩ ctx lines none s =
      ({ out := s.out ++ lines.map (fun l => wp l ++ "\n"), err := s.err }, none) ∧
    newlineCountL (lines.map (fun l => wb (parseFields flags.fieldSeparator l) ++ "\n")) =
      lines.length ∧
    newlineCountL (lines.map (fun l => wp l ++ "\n")) = lines.length := by
  refine ⟨?_, ?_, ?_, ?_⟩
  · have h := bodyExec_allOk flags body ctx ub (fun args => [wb args ++ "\n"]) (fun _ => [])
      hctx hb (fun args t => by simpa using hub args t) lines s
    simpa [flatten_map_singleton, flatten_map_const_nil] using h
  · have e1 : whileExecute ⟨some p⟩ ctx lines none s =
        processLinesSimple ctx
          (fun c _n line t => match p line with
            | none => (t, none)
            | some cmd => cmd.run c none t)
          lines none 1 s := rfl
    have h := processLinesSimple_allOk ctx
      (fun c _n line t => match p line with
        | none => (t, none)
        | some cmd => cmd.run c none t)
      (fun l => [wp l ++ "\n"]) (fun _ => []) hctx
      (fun n line t => by simp [hp, hup]) lines 1 s
    rw [e1, h]
    simp [flatten_map_singleton, flatten_map_const_nil]
  · exact newlineCountL_one_per_chunk _ (fun l => hwb _) lines
  · exact newlineCountL_one_per_chunk _ hwp lines

/-- Witness for C1 at a concrete input: two lines, each unit writing the single line
`x`; both loops produce exactly the two chunks `x\n`, holding two newlines. -/
theorem c1_n_lines_in_n_lines_out_witness :
    bodyExec ⟨""⟩ xBody ⟨false⟩ ["a", "b"] none ⟨[], []⟩ = (⟨["x\n", "x\n"], []⟩, none) ∧
    whileExecute ⟨some xProc⟩ ⟨false⟩ ["a", "b"] none ⟨[], []⟩ =
      (⟨["x\n", "x\n"], []⟩, none) ∧
    newlineCountL ["x\n", "x\n"] = 2 := by
  have h := c1_n_lines_in_n_lines_out ⟨""⟩ xBody xProc ⟨false⟩ ["a", "b"] ⟨[], []⟩
    (fun _ => xUnit) (fun _ => "x") (fun _ => xUnit) (fun _ => "x")
    rfl (fun _ => rfl) (fun _ _ => rfl) (fun _ => (by decide : newlineCount "x" = 0))
    (fun _ => rfl) (fun _ _ => rfl) (fun _ => (by decide : newlineCount "x" = 0))
  exact ⟨h.1.trans (by decide), h.2.1.trans (by decide),
    (by decide : newlineCountL ["x\n", "x\n"] =
        newlineCountL (List.map (fun l => (fun _ => "x") l ++ "\n") ["a", "b"])).trans
      (h.2.2.2.trans (by decide))⟩

/-- A body / processor result of `none`, modelling a Go `nil` command for every line. -/
def noneBody : Body := fun _ => none

/-- A processor that yields no unit for any line. -/
def noneProc : String → Option UnitCmd := fun _ => none

/-- C5: a line for which the body / processor yields no unit (Go `nil`) contributes
nothing: both loops behave on `l :: rest` exactly as they do on `rest` — same stream
evolution, same result — so the skip is not an error and processing continues with
the next line. -/
theorem c5_nil_command_skips_line (flags : BFlags) (body : Body)
    (p : String → Option UnitCmd) (ctx : Ctx) (l : String) (rest : List String)
    (readErr : Option String) (s : Streams)
    (hb : body (parseFields flags.fieldSeparator l) = none)
    (hp : p l = none) (hctx : ctx.cancelled = false) :
    bodyExec flags body ctx (l :: rest) readErr s = bodyExec flags body ctx rest readErr s ∧
    whileExecute ⟨some p⟩ ctx (l :: rest) readErr s =
      whileExecute ⟨some p⟩ ctx rest readErr s := by
  constructor
  · rw [bodyExec, hb]
  · have e1 : whileExecute ⟨some p⟩ ctx (l :: rest) readErr s =
        processLinesSimple ctx
          (fun c _n line t => match p line with
            | none => (t, none)
            | some cmd => cmd.run c none t)
          (l :: rest) readErr 1 s := rfl
    have e2 : whileExecute ⟨some p⟩ ctx rest readErr s =
        processLinesSimple ctx
          (fun c _n line t => match p line with
            | none => (t, none)
            | some cmd => cmd.run c none t)
          rest readErr 1 s := rfl
    rw [e1, e2, processLinesSimple]
    simp only [hctx, Bool.false_eq_true, if_false, hp]
    exact processLinesSimple_lineNum_irrel ctx
      (fun c _n line t => match p line with
        | none => (t, none)
        | some cmd => cmd.run c none t)
      (fun n m line t => rfl) rest readErr 2 1 s

/-- Witness for C5 at a concrete input: with an always-`nil` body / processor, the
loop on `["a", "b"]` equals the loop on `["b"]`. -/
theorem c5_nil_command_skips_line_witness :
    bodyExec ⟨""⟩ noneBody ⟨false⟩ ["a", "b"] none ⟨[], []⟩ =
      bodyExec ⟨""⟩ noneBody ⟨false⟩ ["b"] none ⟨[], []⟩ ∧
    whileExecute ⟨some noneProc⟩ ⟨false⟩ ["a", "b"] none ⟨[], []⟩ =
      whileExecute ⟨some noneProc⟩ ⟨false⟩ ["b"] none ⟨[], []⟩ :=
  c5_nil_command_skips_line ⟨""⟩ noneBody noneProc ⟨false⟩ "a" ["b"] none ⟨[], []⟩ rfl rfl rfl

/-- Description of the input reader a probing unit was handed: `absent` for a nil
reader, `empty[c]` for a reader whose full remaining content is `c`. -/
def inpTag : Option String → String
  | none => "absent"
  | some x => "empty[" ++ x ++ "]"

/-- A unit that records, on the streams it is handed, the input reader it received
(on stdout) and the cancellation state of the context it received (on stderr), then
succeeds. -/
def probeUnit : UnitCmd :=
  ⟨fun c i s => ({ out := s.out ++ [inpTag i],
                   err := s.err ++ [if c.cancelled then "ctx-done" else "ctx-live"] }, none)⟩

/-- A body that yields `probeUnit` for every line. -/
def probeBody : Body := fun _ => some probeUnit

/-- A processor that yields `probeUnit` for every line. -/
def probeProc : String → Option UnitCmd := fun _ => some probeUnit

/-- C6: every executed unit is invoked with the loop's own execution context, with an
empty (body-based variant: a reader over `""`) or absent (yupsh variant: nil) input
stream — never the remaining original input — and with the shared stdout and stderr:
a unit probing its arguments records, once per line, the loop's context state and the
empty/absent input on the very streams the loop accumulates. -/
theorem c6_unit_receives_shared_streams_empty_input (flags : BFlags) (ctx : Ctx)
    (lines : List String) (o e : List String) (hctx : ctx.cancelled = false) :
    bodyExec flags probeBody ctx lines none ⟨o, e⟩ =
      (⟨o ++ List.replicate lines.length (inpTag (some "")),
        e ++ List.replicate lines.length "ctx-live"⟩, none) ∧
    whileExecute ⟨some probeProc⟩ ctx lines none ⟨o, e⟩ =
      (⟨o ++ List.replicate lines.length (inpTag none),
        e ++ List.replicate lines.length "ctx-live"⟩, none) := by
  constructor
  · have h := bodyExec_allOk flags probeBody ctx (fun _ => probeUnit)
      (fun _ => [inpTag (some "")]) (fun _ => ["ctx-live"]) hctx (fun _ => rfl)
      (fun args t => by simp [probeUnit, hctx]) lines ⟨o, e⟩
    simpa [flatten_map_const_singleton] using h
  · have e1 : whileExecute ⟨some probeProc⟩ ctx lines none ⟨o, e⟩ =
        processLinesSimple ctx
          (fun c _n line t => match probeProc line with
            | none => (t, none)
            | some cmd => cmd.run c none t)
          lines none 1 ⟨o, e⟩ := rfl
    have h := processLinesSimple_allOk ctx
      (fun c _n line t => match probeProc line with
        | none => (t, none)
        | some cmd => cmd.run c none t)
      (fun _ => [inpTag none]) (fun _ => ["ctx-live"]) hctx
      (fun n line t => by simp [probeProc, probeUnit, hctx]) lines 1 ⟨o, e⟩
    rw [e1, h]
    simp [flatten_map_const_singleton]

/-- Witness for C6 at a concrete input: on two lines the probing unit records twice
`empty[]` (body variant) or `absent` (yupsh variant) on the shared stdout and twice
`ctx-live` on the shared stderr. -/
theorem c6_unit_receives_shared_streams_empty_input_witness :
    bodyExec ⟨""⟩ probeBody ⟨false⟩ ["a", "b"] none ⟨[], []⟩ =
      (⟨["empty[]", "empty[]"], ["ctx-live", "ctx-live"]⟩, none) ∧
    whileExecute ⟨some probeProc⟩ ⟨false⟩ ["a", "b"] none ⟨[], []⟩ =
      (⟨["absent", "absent"], ["ctx-live", "ctx-live"]⟩, none) := by
  have h := c6_unit_receives_shared_streams_empty_input ⟨""⟩ ⟨false⟩ ["a", "b"] [] [] rfl
  exact ⟨h.1.trans (by decide), h.2.trans (by decide)⟩

/-- C9: in the body-based variant every line is split into fields — on whitespace
when the `FieldSeparator` flag is empty, on each occurrence of the separator
otherwise — and the body is called exactly once per line, in line order, with
exactly those fields as its arguments: for an arbitrary per-call effect `f` of the
yielded unit, the output is the concatenation, over the lines in order, of
`f` applied to that line's parsed fields. -/
theorem c9_field_splitting_once_per_line (fs : String) (ctx : Ctx)
    (lines : List String) (o e : List String) (f : List String → List String)
    (hctx : ctx.cancelled = false) :
    bodyExec ⟨fs⟩
        (fun args => some ⟨fun _ _ t => ({ out := t.out ++ f args, err := t.err }, none)⟩)
        ctx lines none ⟨o, e⟩ =
      (⟨o ++ (lines.map (fun l => f (parseFields fs l))).flatten, e⟩, none) ∧
    (fs ≠ "" → ∀ l : String,
      List.intercalate fs.toList ((parseFields fs l).map String.toList) = l.toList) ∧
    (fs = "" → ∀ l : String,
      ((parseFields fs l).map String.toList).flatten =
        l.toList.filter (fun c => !goIsSpace c) ∧
      ∀ t ∈ parseFields fs l, t ≠ "" ∧ ∀ c ∈ t.toList, goIsSpace c = false) := by
  refine ⟨?_, ?_, ?_⟩
  · have h := bodyExec_allOk ⟨fs⟩
      (fun args => some ⟨fun _ _ t => ({ out := t.out ++ f args, err := t.err }, none)⟩) ctx
      (fun args => ⟨fun _ _ t => ({ out := t.out ++ f args, err := t.err }, none)⟩)
      f (fun _ => []) hctx (fun _ => rfl) (fun args t => by simp) lines ⟨o, e⟩
    simpa [flatten_map_const_nil] using h
  · intro h l
    rw [show parseFields fs l = goSplit fs l by simp [parseFields, h]]
    exact goSplit_intercalate fs l h
  · intro h l
    rw [show parseFields fs l = goFields l by simp [parseFields, h]]
    exact ⟨goFields_flatten l, goFields_no_space l⟩

/-- Witness for C9 at concrete inputs: with separator `,`, the line `a,b` is split
into `a` and `b` and the body's unit (here appending its arguments verbatim) runs
once per line, in order; with no separator, fields are cut on whitespace, including
non-Latin-1 white space such as the ideographic space U+3000. -/
theorem c9_field_splitting_once_per_line_witness :
    bodyExec ⟨","⟩
        (fun args => some ⟨fun _ _ t => ({ out := t.out ++ id args, err := t.err }, none)⟩)
        ⟨false⟩ ["a,b", "c"] none ⟨[], []⟩ = (⟨["a", "b", "c"], []⟩, none) ∧
    parseFields "," "a,b" = ["a", "b"] ∧
    parseFields "" "a  b" = ["a", "b"] ∧
    parseFields "" "a\u3000b" = ["a", "b"] := by
  have h := c9_field_splitting_once_per_line "," ⟨false⟩ ["a,b", "c"] [] [] id rfl
  refine ⟨h.1.trans (by decide), by decide, by decide, by decide⟩

/-- The pass-through executor never inspects the flags its command was constructed
with: runs under any two flag values coincide. -/
theorem passExec_flags_irrel (fl fl2 : BFlags) (ctx : Ctx) :
    ∀ (lines : List String) (readErr : Option String) (s : Streams),
      passExec fl ctx lines readErr s = passExec fl2 ctx lines readErr s := by
  intro lines
  induction lines with
  | nil => intro readErr s; rfl
  | cons l t ih =>
    intro readErr s
    rw [passExec, passExec]
    by_cases hc : ctx.cancelled
    · simp [hc]
    · simp only [hc, Bool.false_eq_true, if_false]
      exact ih readErr _

/-- C10: the pass-through executor copies every scanned line to stdout unchanged and
newline-terminated, in input order, writes nothing to stderr, returns success at
clean end-of-stream, and its behaviour is independent of the configured flags (it
invokes no processor — it is defined without one). -/
theorem c10_pass_through_copies_lines (fl fl2 : BFlags) (ctx : Ctx)
    (lines : List String) (readErr : Option String) (o e : List String) (s : Streams)
    (hctx : ctx.cancelled = false) :
    passExec fl ctx lines none ⟨o, e⟩ =
      (⟨o ++ lines.map (fun l => l ++ "\n"), e⟩, none) ∧
    passExec fl ctx lines readErr s = passExec fl2 ctx lines readErr s := by
  refine ⟨?_, passExec_flags_irrel fl fl2 ctx lines readErr s⟩
  induction lines generalizing o with
  | nil => simp [passExec]
  | cons l t ih =>
    rw [passExec]
    simp only [hctx, Bool.false_eq_true, if_false]
    rw [ih (o ++ [l ++ "\n"])]
    simp [List.append_assoc]

/-- Witness for C10 at a concrete input: two lines are copied as `a\n`, `b\n` with
stderr untouched and a success result, identically under two different separators. -/
theorem c10_pass_through_copies_lines_witness :
    passExec ⟨","⟩ ⟨false⟩ ["a", "b"] none ⟨[], []⟩ = (⟨["a\n", "b\n"], []⟩, none) ∧
    passExec ⟨","⟩ ⟨false⟩ ["a", "b"] (some "readfail") ⟨[], []⟩ =
      passExec ⟨""⟩ ⟨false⟩ ["a", "b"] (some "readfail") ⟨[], []⟩ := by
  have h := c10_pass_through_copies_lines ⟨","⟩ ⟨""⟩ ⟨false⟩ ["a", "b"] (some "readfail")
    [] [] ⟨[], []⟩ rfl
  exact ⟨h.1.trans (by decide), h.2⟩

/-- A unit that writes the marker `ran` to stdout and succeeds: its effect in the
output proves that it was executed. -/
def ranUnit : UnitCmd := ⟨fun _ _ s => ({ out := s.out ++ ["ran"], err := s.err }, none)⟩

/-- A body that yields `ranUnit` for every line. -/
def ranBody : Body := fun _ => some ranUnit

/-- C3 counterexample: the body-based executor checks cancellation only after a
line's unit has executed, and not at all on the nil-skip path.  With an
already-cancelled context and the one-line input `a`: (1) a body yielding a
marker-writing unit has its unit executed — the marker `ran` appears in the output —
before the loop returns the cancellation error, contradicting "no unit is executed
for any line"; (2) hence the final streams differ from the initial ones; and (3) a
body yielding no unit makes the loop consume the whole input and return success,
contradicting "returns a cancellation-indicating failure". -/
theorem c3_already_cancelled_counterexample :
    bodyExec ⟨""⟩ ranBody ⟨true⟩ ["a"] none ⟨[], []⟩ = (⟨["ran"], []⟩, some ctxErr) ∧
    (bodyExec ⟨""⟩ ranBody ⟨true⟩ ["a"] none ⟨[], []⟩).1 ≠ ⟨[], []⟩ ∧
    (bodyExec ⟨""⟩ noneBody ⟨true⟩ ["a"] none ⟨[], []⟩).2 = none :=
  ⟨by decide, by decide, by decide⟩

/-- C3 amended: the body-based loop checks cancellation once per line boundary only
after executing that line's unit, and skips the check when the body yields no unit;
the pass-through loop likewise checks only after writing the line.  So under an
already-cancelled context: a line whose unit executes and succeeds makes the loop
stop right after that one execution with the cancellation error (no later line is
processed); a line whose body yields no unit is skipped with no check at all; and
the pass-through executor writes the first line before stopping with the
cancellation error. -/
theorem c3_cancellation_checked_after_line (flags : BFlags) (body : Body)
    (l : String) (rest : List String) (readErr : Option String) (s s' : Streams)
    (u : UnitCmd)
    (hb : body (parseFields flags.fieldSeparator l) = some u)
    (hu : u.run ⟨true⟩ (some "") s = (s', none)) :
    bodyExec flags body ⟨true⟩ (l :: rest) readErr s = (s', some ctxErr) ∧
    (∀ (body2 : Body) (l2 : String) (rest2 : List String) (e2 : Option String)
        (s2 : Streams),
      body2 (parseFields flags.fieldSeparator l2) = none →
      bodyExec flags body2 ⟨true⟩ (l2 :: rest2) e2 s2 =
        bodyExec flags body2 ⟨true⟩ rest2 e2 s2) ∧
    (∀ (fl : BFlags) (l3 : String) (rest3 : List String) (e3 : Option String)
        (t : Streams),
      passExec fl ⟨true⟩ (l3 :: rest3) e3 t =
        ({ t with out := t.out ++ [l3 ++ "\n"] }, some ctxErr)) := by
  refine ⟨?_, ?_, ?_⟩
  · rw [bodyExec]
    simp [hb, hu]
  · intro body2 l2 rest2 e2 s2 hb2
    rw [bodyExec, hb2]
  · intro fl l3 rest3 e3 t
    rw [passExec]
    simp

/-- Witness for the amended C3 at concrete inputs: under an already-cancelled
context the first line's marker-writing unit runs before the loop reports the
cancellation error; a nil-yielding body skips a line without any check; the
pass-through loop writes the first line before reporting the cancellation error. -/
theorem c3_cancellation_checked_after_line_witness :
    bodyExec ⟨""⟩ ranBody ⟨true⟩ ["a", "b"] none ⟨[], []⟩ = (⟨["ran"], []⟩, some ctxErr) ∧
    bodyExec ⟨""⟩ noneBody ⟨true⟩ ["a"] none ⟨[], []⟩ =
      bodyExec ⟨""⟩ noneBody ⟨true⟩ [] none ⟨[], []⟩ ∧
    passExec ⟨""⟩ ⟨true⟩ ["a"] none ⟨[], []⟩ = (⟨["a\n"], []⟩, some ctxErr) := by
  have h := c3_cancellation_checked_after_line ⟨""⟩ ranBody "a" ["b"] none
    ⟨[], []⟩ ⟨["ran"], []⟩ ranUnit rfl rfl
  exact ⟨h.1, h.2.1 noneBody "a" [] none ⟨[], []⟩ rfl,
    (h.2.2 ⟨""⟩ "a" [] none ⟨[], []⟩).trans (by decide)⟩

end WhileLoop
